import Mathlib

/-!
Verification of the Nodle IChing barcode library (TypeScript source) against its
natural-language specification.  Each section embeds one component of the source
as executable Lean definitions and proves or refutes the corresponding claims.

Conventions of the embedding:
* JS numbers holding small non-negative integers become `Nat`; signed quantities
  become `Int`; JS floating point values that the source only ever combines by
  field operations and order comparisons become `ℚ`.
* Typed arrays become `List Nat`; `arr[i]` reads become `List.getD` (all reads
  proved or assumed in range where it matters) and writes become `List.set`.
* Code that throws becomes `Except String`.
-/

namespace IChing

/-! ## Galois field GF(2^6), current revision
Source: src/core/common/reedsolomon/BinaryGF.ts.
The constructor builds `expTable` and `logTable` by iterating
`x <<= 1; if (x & size) x ^= primitive` for `i` in `[0, size)`,
recording `expTable[i] = x` and `logTable[x] = i` before each step. -/

namespace BinaryGF

/-- Primitive polynomial x^6 + x + 1, source constant PRIMITIVE_DEGREE_6. -/
def primitive : Nat := 0x43

/-- Field size 1 <<< 6, source field `size` for BINARY_GF_6. -/
def size : Nat := 64

/-- One step of the table-building loop: `x <<= 1; if (x & this.size) x ^= this.primitive`. -/
def stepX (x : Nat) : Nat :=
  let y := x <<< 1
  if y &&& size ≠ 0 then y ^^^ primitive else y

/-- The table-building loop of the BinaryGF constructor; `fuel` counts the
remaining iterations, `i` is the loop index, `x` the running power of alpha. -/
def tablesGo : Nat → Nat → Nat → List Nat → List Nat → List Nat × List Nat
  | 0, _, _, e, l => (e, l)
  | fuel+1, i, x, e, l => tablesGo fuel (i+1) (stepX x) (e.set i x) (l.set x i)

/-- Exponent and log tables of GF(2^6) as built by the constructor with
`m = 6`: the loop runs for `i` in `[0, 64)` over zero-initialised arrays. -/
def tables : List Nat × List Nat :=
  tablesGo 64 0 1 (List.replicate 64 0) (List.replicate 64 0)

/-- Source field `expTable`. -/
def expTable : List Nat := tables.1

/-- Source field `logTable`. -/
def logTable : List Nat := tables.2

/-- Source method `add`: addition is bitwise XOR. -/
def add (x y : Nat) : Nat := x ^^^ y

/-- Source method `multiply`: zero absorbs, otherwise add logs mod 63. -/
def multiply (x y : Nat) : Nat :=
  if x = 0 ∨ y = 0 then 0
  else expTable.getD ((logTable.getD x 0 + logTable.getD y 0) % 63) 0

/-- Value computed by `mulInverse` for non-zero x: `expTable[size - 1 - logTable[x]]`. -/
def invVal (x : Nat) : Nat := expTable.getD (size - 1 - logTable.getD x 0) 0

/-- Source method `mulInverse`: throws on zero, else looks up the inverse. -/
def mulInverse (x : Nat) : Except String Nat :=
  if x = 0 then .error "0 has no multiplicative inverse!"
  else .ok (invVal x)

/-- Source method `divide`: throws on zero divisor, else multiplies by the inverse. -/
def divide (x y : Nat) : Except String Nat :=
  if y = 0 then .error "Division by zero!"
  else .ok (multiply x (invVal y))

/-- Source method `exp`: direct table lookup. -/
def expF (x : Nat) : Nat := expTable.getD x 0

/-- Source method `log`: throws on zero, else direct table lookup. -/
def logF (x : Nat) : Except String Nat :=
  if x = 0 then .error "Log(0) is not defined in Galois Fields!"
  else .ok (logTable.getD x 0)

end BinaryGF

/-- C7: in GF(2^6), every non-zero field element x in [1, 63] satisfies
`multiply(x, mulInverse(x)) = 1`, and `mulInverse(0)` raises an error. -/
theorem c7_mulInverse_correct :
    (∀ x, 0 < x → x < 64 →
      ∃ y, BinaryGF.mulInverse x = Except.ok y ∧ BinaryGF.multiply x y = 1) ∧
    (∃ e, BinaryGF.mulInverse 0 = Except.error e) := by
  constructor
  · intro x hpos hlt
    refine ⟨BinaryGF.invVal x, ?_, ?_⟩
    · unfold BinaryGF.mulInverse
      rw [if_neg (Nat.pos_iff_ne_zero.mp hpos)]
    · revert hpos
      revert x
      decide
  · exact ⟨"0 has no multiplicative inverse!", rfl⟩

/-- Witness for C7 at the concrete non-zero element 7. -/
theorem c7_mulInverse_correct_witness :
    ∃ y, BinaryGF.mulInverse 7 = Except.ok y ∧ BinaryGF.multiply 7 y = 1 :=
  c7_mulInverse_correct.1 7 (by decide) (by decide)

/-! ## Galois field GF(2^6), util revision
Source: src/util/reedsolomon/BinaryGF.ts.  Identical arithmetic, but the
constructor loop runs for `i` in `[0, size - 1)`, i.e. 63 iterations. -/

namespace UtilGF

/-- Tables of the util BinaryGF: the constructor loop runs 63 times. -/
def tables : List Nat × List Nat :=
  BinaryGF.tablesGo 63 0 1 (List.replicate 64 0) (List.replicate 64 0)

/-- Source field `expTable` of the util revision. -/
def expTable : List Nat := tables.1

/-- Source field `logTable` of the util revision. -/
def logTable : List Nat := tables.2

/-- Source method `add` of the util revision. -/
def add (x y : Nat) : Nat := x ^^^ y

/-- Source method `multiply` of the util revision. -/
def multiply (x y : Nat) : Nat :=
  if x = 0 ∨ y = 0 then 0
  else expTable.getD ((logTable.getD x 0 + logTable.getD y 0) % 63) 0

/-- Value computed by the util `mulInverse` for non-zero x. -/
def invVal (x : Nat) : Nat := expTable.getD (63 - logTable.getD x 0) 0

/-- Source method `divide` of the util revision: throws on zero divisor, else
returns `multiply(x, mulInverse(y))` (the inner `mulInverse` cannot throw
because y is non-zero at that point). -/
def divide (x y : Nat) : Except String Nat :=
  if y = 0 then .error "Division by zero!"
  else .ok (multiply x (invVal y))

end UtilGF

/-! ## Util polynomial algebra
Source: src/util/reedsolomon/BinaryGFPoly.ts.  A polynomial is its MSB-first
coefficient array after the constructor has stripped leading zeros (keeping at
least one coefficient); the embedding represents it by that stripped list. -/

/-- The leading-zero stripping loop of the BinaryGFPoly constructor:
advance `leading` while it points at a zero and is not the last index,
then slice from `leading`. -/
def stripPoly : List Nat → List Nat
  | [] => []
  | [x] => [x]
  | x :: y :: rest => if x = 0 then stripPoly (y :: rest) else x :: y :: rest

/-- The BinaryGFPoly constructor: throws on an empty coefficient array,
otherwise strips leading zeros. -/
def mkPolyE (cs : List Nat) : Except String (List Nat) :=
  if cs.isEmpty then .error "Polynomial is empty!" else .ok (stripPoly cs)

namespace UtilPoly

/-- XOR the `src` coefficients into `res` starting at position `off`;
this is one of the two alignment loops of the util `add`. -/
def xorAligned (res : List Nat) (off : Nat) (src : List Nat) : List Nat :=
  src.enum.foldl
    (fun r iv => r.set (iv.1 + off) (UtilGF.add (r.getD (iv.1 + off) 0) iv.2)) res

/-- Source method `add` of the util BinaryGFPoly: XOR both coefficient arrays
into a zeroed buffer of the larger length, right-aligned, then construct
(which strips leading zeros). -/
def addPoly (p q : List Nat) : List Nat :=
  let n := max p.length q.length
  stripPoly (xorAligned (xorAligned (List.replicate n 0) (n - p.length) p) (n - q.length) q)

/-- Source method `multiplyPoly` of the util BinaryGFPoly: convolution into a
buffer of length `p.len + q.len - 1`, then construct (which strips). -/
def mulPoly (p q : List Nat) : List Nat :=
  let n := p.length + q.length - 1
  stripPoly <|
    p.enum.foldl
      (fun r ia =>
        q.enum.foldl
          (fun r2 jb =>
            r2.set (ia.1 + jb.1)
              (UtilGF.add (r2.getD (ia.1 + jb.1) 0) (UtilGF.multiply ia.2 jb.2)))
          r)
      (List.replicate n 0)

/-- One iteration of the outer loop of the util `dividePoly`:
`res[i] = divide(res[i], normalizer); coef = res[i];
 if (coef != 0) for j in [0, divisor.len): res[i+j] = add(res[i+j], multiply(coef, divisor[j]))`. -/
def divStep (q : List Nat) (normalizer : Nat) (res : List Nat) (i : Nat) :
    Except String (List Nat) := do
  let c ← UtilGF.divide (res.getD i 0) normalizer
  let res := res.set i c
  if c ≠ 0 then
    return q.enum.foldl
      (fun r jb => r.set (i + jb.1) (UtilGF.add (r.getD (i + jb.1) 0) (UtilGF.multiply c jb.2)))
      res
  else
    return res

/-- Source method `dividePoly` of the util BinaryGFPoly (lines 138-166):
throws on a zero divisor; copies the dividend into a working buffer `res`;
runs the synthetic-division step for `i` in `[0, p.len - q.len - 1)` (an empty
range when that bound is not positive, as in JS); then returns
`[new Poly(res.slice(0, -r)), new Poly(res.slice(-r))]` with
`r = q.len - 1`.  In JS `slice(0, -0)` is empty and `slice(-0)` is the whole
array, which the `r = 0` branches reproduce. -/
def dividePoly (p q : List Nat) : Except String (List Nat × List Nat) := do
  if q.headD 0 = 0 then throw "Division by zero!"
  let normalizer := q.headD 0
  let res ← (List.range (p.length - q.length - 1)).foldlM (divStep q normalizer) p
  let r := q.length - 1
  let quot ← mkPolyE (if r = 0 then [] else res.take (res.length - r))
  let rem ← mkPolyE (if r = 0 then res else res.drop (res.length - r))
  return (quot, rem)

end UtilPoly

/-- C2 fails on the code: dividing p = x^2 by q = x + 1 returns quotient x and
remainder 0, but x·(x+1) + 0 = x^2 + x ≠ x^2, so the returned pair violates
`quotient·q + remainder = p`.  The loop bound `p.len - q.len - 1` (instead of
`p.len - q.len + 1`) makes the synthetic-division loop run zero times here. -/
theorem c2_dividePoly_division_law_fails :
    UtilPoly.dividePoly [1, 0, 0] [1, 1] = Except.ok ([1, 0], [0]) ∧
    UtilPoly.addPoly (UtilPoly.mulPoly [1, 1] [1, 0]) [0] = [1, 1, 0] ∧
    ([1, 1, 0] : List Nat) ≠ [1, 0, 0] := by
  refine ⟨rfl, by decide, by decide⟩

/-! ## Pattern locator finder assignment
Source: src/core/decoder/locator/Locator.ts (assignFinders, lines 154-179) and
the geometry helpers of the locator module.  Pixel coordinates are JS floats;
the embedding uses exact rationals. -/

/-- A 2-D point with rational coordinates (source interface Point). -/
structure Pt where
  x : ℚ
  y : ℚ

/-- Source helper `sqDistance`: squared euclidean distance. -/
def sqDistance (a b : Pt) : ℚ :=
  (a.x - b.x) * (a.x - b.x) + (a.y - b.y) * (a.y - b.y)

/-- Source helper `vec`: the vector from a to b. -/
def vec (a b : Pt) : Pt := ⟨b.x - a.x, b.y - a.y⟩

/-- Source helper `cross`: 2-D cross product magnitude. -/
def cross (a b : Pt) : ℚ := a.x * b.y - a.y * b.x

/-- The final conditional of `assignFinders`:
`if (cross(vec(a,b), vec(a,c)) > 0) [a, b] = [b, a]`. -/
def orientPair (a b c : Pt) : Pt × Pt :=
  if cross (vec a b) (vec a c) > 0 then (b, a) else (a, b)

/-- Source method `Locator.assignFinders`, returning the assigned
`(bottomLeft, topRight, topLeft)`.  The first two branches mirror the JS swaps
`[c, b] = [b, c]` and `[c, a] = [a, c]` that move the farthest pair into
`(a, b)`; the last step is the orientation swap. -/
def assignFinders (a b c : Pt) : Pt × Pt × Pt :=
  if sqDistance a c > sqDistance a b ∧ sqDistance a c > sqDistance b c then
    ((orientPair a c b).1, (orientPair a c b).2, b)
  else if sqDistance b c > sqDistance a b then
    ((orientPair c b a).1, (orientPair c b a).2, a)
  else
    ((orientPair a b c).1, (orientPair a b c).2, c)

/-- Swapping the base point of the two vectors negates the cross product. -/
theorem cross_vec_swap (a b c : Pt) :
    cross (vec b a) (vec b c) = -cross (vec a b) (vec a c) := by
  simp only [cross, vec]
  ring

/-- After the orientation conditional, the cross product is non-positive. -/
theorem orientPair_cross_nonpos (a b c : Pt) :
    cross (vec (orientPair a b c).1 (orientPair a b c).2)
      (vec (orientPair a b c).1 c) ≤ 0 := by
  unfold orientPair
  split_ifs with h
  · simp only
    rw [cross_vec_swap]
    linarith
  · simpa using le_of_not_lt h

/-- C8: for every triple of candidate centres, the finder corners assigned by
`assignFinders` satisfy `cross(topRight - bottomLeft, topLeft - bottomLeft) ≤ 0`,
i.e. the three corners are clockwise in image coordinates.  In `Locator.locate`
the fields `bottomLeft`, `topRight`, `topLeft` of the returned location are set
exclusively by `assignFinders`, so this covers every successful locate. -/
theorem c8_assignFinders_clockwise (a b c : Pt) :
    cross (vec (assignFinders a b c).1 (assignFinders a b c).2.1)
      (vec (assignFinders a b c).1 (assignFinders a b c).2.2) ≤ 0 := by
  unfold assignFinders
  split_ifs with h1 h2
  · exact orientPair_cross_nonpos a c b
  · exact orientPair_cross_nonpos c b a
  · exact orientPair_cross_nonpos a b c

/-! ## Symbol extractor line classification
Source: the later Extractor revision (constants at its head, method
`getHorizontalState`), together with the renderer dimension constants it uses
from Writer.  JS float quantities become exact rationals. -/

namespace Writer

/-- Source constant `Writer.UNIT_DIM`. -/
def unitDim : Nat := 2

/-- Source constant `Writer.BITS_PER_SYMBOL`. -/
def bitsPerSymbol : Nat := 6

/-- Source constant `Writer.SYMBOL_DIM = (BITS_PER_SYMBOL * 2 - 1) * UNIT_DIM`. -/
def symbolDim : Nat := (bitsPerSymbol * 2 - 1) * unitDim

/-- Source constant `Writer.BIT_ZERO_OFFSET = UNIT_DIM * 4.5`. -/
def bitZeroOffset : ℚ := unitDim * (9 / 2)

/-- Source constant `Writer.GAP_DIM = UNIT_DIM * 3`. -/
def gapDim : Nat := unitDim * 3

end Writer

namespace Extractor

/-- Source constant `LINE_VALID_BLACK_THRESHOLD = 0.5`. -/
def lineValidBlackThreshold : ℚ := 1 / 2

/-- Source constant `LINE_ONE_BLACK_THRESHOLD = 0.8` (later revision). -/
def lineOneBlackThreshold : ℚ := 4 / 5

/-- A bit matrix: `get(x, y)` reads `data[y * width + x]` (source BitMatrix).
The embedding guards reads so that only in-range cells contribute; every read
performed by the theorems below is in range. -/
structure BitMat where
  width : Nat
  height : Nat
  data : List Nat

/-- Source `BitMatrix.get` for in-range coordinates. -/
def BitMat.get (m : BitMat) (x y : Int) : Nat :=
  if 0 ≤ x ∧ x < m.width ∧ 0 ≤ y ∧ y < m.height then
    m.data.getD (y.toNat * m.width + x.toNat) 0
  else 0

/-- Source `countBlackInLine` for a horizontal line (both call sites in
`getHorizontalState` pass `y1 = y2`, so the non-axis-aligned guard of the
source never fires there): sums `matrix.get(x, y)` for x from x1 to x2. -/
def countBlackInLineH (m : BitMat) (x1 x2 y : Int) : Nat :=
  (List.range (x2 - x1 + 1).toNat).foldl (fun cnt i => cnt + m.get (x1 + i) y) 0

/-- The left edge of the central zero-clear window:
`Math.floor(x1 + Writer.BIT_ZERO_OFFSET * this.scale)`. -/
def zeroX1 (x1 : Int) (scale : ℚ) : Int := Int.floor ((x1 : ℚ) + Writer.bitZeroOffset * scale)

/-- The right edge of the central zero-clear window:
`Math.ceil(x2 - Writer.BIT_ZERO_OFFSET * this.scale)`. -/
def zeroX2 (x2 : Int) (scale : ℚ) : Int := Int.ceil ((x2 : ℚ) - Writer.bitZeroOffset * scale)

/-- Source method `Extractor.getHorizontalState` (later revision): returns the
LINE_STATE constant -1 (INVALID), 0 (ZERO) or 1 (ONE). -/
def getHorizontalState (m : BitMat) (x1 x2 y : Int) (scale : ℚ) : Int :=
  let lineWidth : ℚ := ((x2 - x1 + 1 : Int) : ℚ)
  let black := countBlackInLineH m x1 x2 y
  if (black : ℚ) / lineWidth < lineValidBlackThreshold then -1
  else
    let zx1 := zeroX1 x1 scale
    let zx2 := zeroX2 x2 scale
    let zeroWidth : ℚ := ((zx2 - zx1 + 1 : Int) : ℚ)
    let blackCentre := countBlackInLineH m zx1 zx2 y
    if (blackCentre : ℚ) / zeroWidth < lineOneBlackThreshold then 0 else 1

/-- The classification exactly as the claim words it, with ZERO threshold 0.9:
INVALID when the full-line black fraction is below 0.5, ZERO when the
central-window black fraction is below 0.9, else ONE. -/
def claimLineState (fullFrac centreFrac : ℚ) : Int :=
  if fullFrac < 1 / 2 then -1
  else if centreFrac < 9 / 10 then 0
  else 1

end Extractor

/-- C9 fails on the code: a 38-pixel line whose central zero-clear window is
17/20 = 0.85 black is classified ONE by `getHorizontalState` (threshold 0.8),
while the claim (threshold 0.9) classifies it ZERO.  The matrix is one row of
26 black pixels followed by 12 white ones, scanned with x1 = 0, x2 = 37 and
scale 1, so the full-line fraction is 26/38 and the central window is
[9, 28] with 17 black pixels. -/
theorem c9_counterexample :
    Extractor.getHorizontalState
      ⟨38, 1, List.replicate 26 1 ++ List.replicate 12 0⟩ 0 37 0 1 = 1 ∧
    Extractor.countBlackInLineH
      ⟨38, 1, List.replicate 26 1 ++ List.replicate 12 0⟩ 0 37 0 = 26 ∧
    Extractor.zeroX1 0 1 = 9 ∧ Extractor.zeroX2 37 1 = 28 ∧
    Extractor.countBlackInLineH
      ⟨38, 1, List.replicate 26 1 ++ List.replicate 12 0⟩ 9 28 0 = 17 ∧
    Extractor.claimLineState (26 / 38) (17 / 20) = 0 := by
  have hz1 : Extractor.zeroX1 0 1 = 9 := by
    norm_num [Extractor.zeroX1, Writer.bitZeroOffset, Writer.unitDim]
  have hz2 : Extractor.zeroX2 37 1 = 28 := by
    norm_num [Extractor.zeroX2, Writer.bitZeroOffset, Writer.unitDim]
  have hc1 : Extractor.countBlackInLineH
      ⟨38, 1, List.replicate 26 1 ++ List.replicate 12 0⟩ 0 37 0 = 26 := by decide
  have hc2 : Extractor.countBlackInLineH
      ⟨38, 1, List.replicate 26 1 ++ List.replicate 12 0⟩ 9 28 0 = 17 := by decide
  refine ⟨?_, hc1, hz1, hz2, hc2, ?_⟩
  · norm_num [Extractor.getHorizontalState, hz1, hz2, hc1, hc2,
      Extractor.lineValidBlackThreshold, Extractor.lineOneBlackThreshold]
  · norm_num [Extractor.claimLineState]

/-- C9 amended: `getHorizontalState` classifies a line INVALID exactly when
the full-line black fraction is below 0.5, ZERO exactly when it is valid and
the central zero-clear window is less than 0.8 black (not 0.9 as claimed),
and ONE otherwise. -/
theorem c9_amended_line_classification (m : Extractor.BitMat) (x1 x2 y : Int) (scale : ℚ) :
    (Extractor.getHorizontalState m x1 x2 y scale = -1 ↔
      (Extractor.countBlackInLineH m x1 x2 y : ℚ) / ((x2 - x1 + 1 : Int) : ℚ) < 1 / 2) ∧
    (Extractor.getHorizontalState m x1 x2 y scale = 0 ↔
      ¬((Extractor.countBlackInLineH m x1 x2 y : ℚ) / ((x2 - x1 + 1 : Int) : ℚ) < 1 / 2) ∧
      (Extractor.countBlackInLineH m (Extractor.zeroX1 x1 scale) (Extractor.zeroX2 x2 scale) y : ℚ) /
          ((Extractor.zeroX2 x2 scale - Extractor.zeroX1 x1 scale + 1 : Int) : ℚ) < 4 / 5) ∧
    (Extractor.getHorizontalState m x1 x2 y scale = 1 ↔
      ¬((Extractor.countBlackInLineH m x1 x2 y : ℚ) / ((x2 - x1 + 1 : Int) : ℚ) < 1 / 2) ∧
      ¬((Extractor.countBlackInLineH m (Extractor.zeroX1 x1 scale) (Extractor.zeroX2 x2 scale) y : ℚ) /
          ((Extractor.zeroX2 x2 scale - Extractor.zeroX1 x1 scale + 1 : Int) : ℚ) < 4 / 5)) := by
  unfold Extractor.getHorizontalState
  simp only [Extractor.lineValidBlackThreshold, Extractor.lineOneBlackThreshold]
  split_ifs with h1 h2 <;> simp_all

/-! ## Decode entry point, effect on the input buffer
Source: src/core/decoder/index.ts (the revision with DecoderOptions,
lines 70-105).  When `options.inverted === true` the entry point runs
`data[idx] = 255 - data[idx]` over the three RGB channels of every pixel
before binarizing; every later stage (toGrayscale, locator, transform,
extractor, content decoder) only reads `data`, so the state of the caller
buffer after the call is exactly the state after this loop. -/

/-- The inversion of one pixel at base index `idx`: the three writes
`data[idx+c] = 255 - data[idx+c]` for c = 0, 1, 2. -/
def invertPixel (d : List Nat) (idx : Nat) : List Nat :=
  let d1 := d.set idx (255 - d.getD idx 0)
  let d2 := d1.set (idx + 1) (255 - d1.getD (idx + 1) 0)
  d2.set (idx + 2) (255 - d2.getD (idx + 2) 0)

/-- The nested row/col inversion loop: pixel number i has base index 4·i. -/
def invertLoop (d : List Nat) (n : Nat) : List Nat :=
  (List.range n).foldl (fun acc i => invertPixel acc (4 * i)) d

/-- State of the caller RGBA buffer after the decode entry point returns or
throws: unchanged when `inverted` is false or absent, otherwise the result of
the inversion loop over all `height * width` pixels. -/
def decodeInputEffect (d : List Nat) (w h : Nat) (inverted : Bool) : List Nat :=
  if inverted then invertLoop d (h * w) else d

/-- C5 fails on the code: decoding a 1-by-1 image with `inverted = true`
rewrites the RGB bytes of the caller buffer in place. -/
theorem c5_decode_mutates_input_counterexample :
    decodeInputEffect [0, 0, 0, 255] 1 1 true = [255, 255, 255, 0 + 255] ∧
    decodeInputEffect [0, 0, 0, 255] 1 1 true ≠ [0, 0, 0, 255] := by
  constructor <;> decide

theorem getD_set_ne (l : List Nat) (i j v : Nat) (h : i ≠ j) :
    (l.set i v).getD j 0 = l.getD j 0 := by
  simp [List.getD_eq_getElem?_getD, List.getElem?_set, h]

theorem getD_set_self (l : List Nat) (i v : Nat) (h : i < l.length) :
    (l.set i v).getD i 0 = v := by
  simp [List.getD_eq_getElem?_getD, List.getElem?_set, h]

theorem invertPixel_eq (d : List Nat) (idx : Nat) :
    invertPixel d idx =
      ((d.set idx (255 - d.getD idx 0)).set (idx + 1) (255 - d.getD (idx + 1) 0)).set
        (idx + 2) (255 - d.getD (idx + 2) 0) := by
  simp only [invertPixel]
  rw [getD_set_ne _ _ _ _ (by omega), getD_set_ne _ _ _ _ (by omega),
    getD_set_ne _ _ _ _ (by omega)]

theorem invertPixel_length (d : List Nat) (idx : Nat) :
    (invertPixel d idx).length = d.length := by
  simp [invertPixel_eq]

theorem invertLoop_length (d : List Nat) (n : Nat) :
    (invertLoop d n).length = d.length := by
  induction n with
  | zero => rfl
  | succ n ih =>
      unfold invertLoop at ih ⊢
      rw [List.range_succ, List.foldl_append]
      simp [invertPixel_length, ih]

theorem invertPixel_getD (d : List Nat) (idx j : Nat) :
    (invertPixel d idx).getD j 0 =
      if (j = idx ∨ j = idx + 1 ∨ j = idx + 2) ∧ j < d.length then 255 - d.getD j 0
      else d.getD j 0 := by
  rw [invertPixel_eq]
  rcases Nat.lt_or_ge j d.length with hj | hj
  · by_cases h2 : j = idx + 2
    · subst h2
      rw [getD_set_self _ _ _ (by simpa using hj), if_pos ⟨by omega, hj⟩]
    · rw [getD_set_ne _ _ _ _ (Ne.symm h2)]
      by_cases h1 : j = idx + 1
      · subst h1
        rw [getD_set_self _ _ _ (by simpa using hj), if_pos ⟨by omega, hj⟩]
      · rw [getD_set_ne _ _ _ _ (Ne.symm h1)]
        by_cases h0 : j = idx
        · subst h0
          rw [getD_set_self _ _ _ hj, if_pos ⟨by omega, hj⟩]
        · rw [getD_set_ne _ _ _ _ (Ne.symm h0), if_neg (by tauto)]
  · have hLen : (((d.set idx (255 - d.getD idx 0)).set (idx + 1)
        (255 - d.getD (idx + 1) 0)).set (idx + 2) (255 - d.getD (idx + 2) 0)).length =
          d.length := by simp
    rw [List.getD_eq_default _ _ (hLen ▸ hj), List.getD_eq_default _ _ hj,
      if_neg (by omega)]

theorem invertLoop_getD (d : List Nat) (n : Nat) (j : Nat) (hj : j < d.length) :
    (invertLoop d n).getD j 0 =
      if j < 4 * n ∧ j % 4 ≠ 3 then 255 - d.getD j 0 else d.getD j 0 := by
  induction n with
  | zero =>
      rw [if_neg (by omega)]
      rfl
  | succ n ih =>
      have hstep : invertLoop d (n + 1) = invertPixel (invertLoop d n) (4 * n) := by
        unfold invertLoop
        rw [List.range_succ, List.foldl_append]
        rfl
      rw [hstep, invertPixel_getD, invertLoop_length, ih]
      by_cases hin : j = 4 * n ∨ j = 4 * n + 1 ∨ j = 4 * n + 2
      · rw [if_pos ⟨hin, hj⟩, if_neg (show ¬(j < 4 * n ∧ j % 4 ≠ 3) by omega),
          if_pos (show j < 4 * (n + 1) ∧ j % 4 ≠ 3 by omega)]
      · rw [if_neg (fun h => hin h.1)]
        have hiff : (j < 4 * (n + 1) ∧ j % 4 ≠ 3) ↔ (j < 4 * n ∧ j % 4 ≠ 3) := by omega
        by_cases hc : j < 4 * n ∧ j % 4 ≠ 3
        · rw [if_pos hc, if_pos (hiff.mpr hc)]
        · rw [if_neg hc, if_neg (fun h => hc (hiff.mp h))]

/-- C5 amended: the decode entry point leaves the input buffer untouched when
`inverted` is false; when `inverted` is true it replaces, in place, every RGB
channel byte c of every pixel by 255 - c and leaves the alpha bytes (index
congruent to 3 mod 4) and any bytes beyond the last pixel unchanged. -/
theorem c5_amended_decode_input_effect (d : List Nat) (w h : Nat) :
    decodeInputEffect d w h false = d ∧
    (decodeInputEffect d w h true).length = d.length ∧
    (∀ j, j < d.length →
      (decodeInputEffect d w h true).getD j 0 =
        if j < 4 * (h * w) ∧ j % 4 ≠ 3 then 255 - d.getD j 0 else d.getD j 0) := by
  refine ⟨rfl, invertLoop_length d (h * w), fun j hj => ?_⟩
  exact invertLoop_getD d (h * w) j hj

/-- Witness for C5 amended at a concrete 1-by-1 image: the red byte becomes
255 - 1 = 254. -/
theorem c5_amended_decode_input_effect_witness :
    (decodeInputEffect [1, 2, 3, 4] 1 1 true).getD 0 0 =
      if 0 < 4 * (1 * 1) ∧ 0 % 4 ≠ 3 then 255 - ([1, 2, 3, 4] : List Nat).getD 0 0
      else ([1, 2, 3, 4] : List Nat).getD 0 0 :=
  (c5_amended_decode_input_effect [1, 2, 3, 4] 1 1).2.2 0 (by decide)

/-! ## Field polynomials of the Reed-Solomon layer
The Reed-Solomon encoder and decoder under src/core/common/reedsolomon import
a BinaryGFPoly class from their own directory that is not among the source
files (only the util revision is); its operations are modelled from the spec
(section 4.2).  A polynomial is its MSB-first coefficient list with leading
zeros stripped; the canonical zero polynomial is `[0]`. -/

namespace GFPoly

/-- Modelled from the spec: the polynomial constructor strips leading zeros;
an empty coefficient list (which the class rejects) maps to canonical zero. -/
def mk (cs : List Nat) : List Nat :=
  if stripPoly cs = [] then [0] else stripPoly cs

/-- Modelled from the spec: degree = length - 1. -/
def degree (p : List Nat) : Nat := p.length - 1

/-- Modelled from the spec: coefficient lookup by degree on the
descending-degree coefficient array; degrees above the leading one are 0. -/
def getCoefficient (p : List Nat) (d : Nat) : Nat := p.getD (p.length - 1 - d) 0

/-- Modelled from the spec: a polynomial is zero iff its leading stored
coefficient is zero. -/
def isZero (p : List Nat) : Bool := p.headD 0 = 0

/-- Modelled from the spec: Horner evaluation. -/
def evaluateAt (p : List Nat) (x : Nat) : Nat :=
  p.foldl (fun res co => BinaryGF.add co (BinaryGF.multiply res x)) 0

/-- Modelled from the spec: `add` XORs coefficients of corresponding degrees
(right-aligned) and re-strips. -/
def addPoly (p q : List Nat) : List Nat :=
  let n := max p.length q.length
  mk (UtilPoly.xorAligned (UtilPoly.xorAligned (List.replicate n 0) (n - p.length) p)
    (n - q.length) q)

/-- Modelled from the spec: `multiplyPoly` is the coefficient convolution. -/
def mulPoly (p q : List Nat) : List Nat :=
  let n := p.length + q.length - 1
  mk <|
    p.enum.foldl
      (fun r ia =>
        q.enum.foldl
          (fun r2 jb =>
            r2.set (ia.1 + jb.1)
              (BinaryGF.add (r2.getD (ia.1 + jb.1) 0) (BinaryGF.multiply ia.2 jb.2)))
          r)
      (List.replicate n 0)

/-- Modelled from the spec: `multiplyScalar` multiplies each coefficient. -/
def mulScalar (p : List Nat) (s : Nat) : List Nat :=
  mk (p.map (fun c => BinaryGF.multiply c s))

/-- The inner update of one synthetic-division step: XOR `coef` times the
trailing divisor coefficients into the working buffer. -/
def synthInner (q : List Nat) (i c : Nat) (res : List Nat) : List Nat :=
  (List.range (q.length - 1)).foldl
    (fun r j =>
      r.set (i + j + 1)
        (BinaryGF.add (r.getD (i + j + 1) 0) (BinaryGF.multiply c (q.getD (j + 1) 0))))
    res

/-- Modelled from the spec: `dividePoly` by extended synthetic division in
place on a working buffer; the remainder is assembled from exactly
`divisor.len - 1` trailing coefficients of the buffer.  The guard `isZero`
rejects a zero divisor, so the normalizer is non-zero and the per-step
division by it is `multiply` with its inverse value. -/
def divModPoly (p q : List Nat) : Except String (List Nat × List Nat) :=
  if q.headD 0 = 0 then .error "Division by zero!" else
  let res := (List.range (p.length - q.length + 1)).foldl
    (fun r i =>
      let c := BinaryGF.multiply (r.getD i 0) (BinaryGF.invVal (q.headD 0))
      let r2 := r.set i c
      if c ≠ 0 then synthInner q i c r2 else r2)
    p
  .ok (mk (res.take (p.length - (q.length - 1))), mk (res.drop (p.length - (q.length - 1))))

end GFPoly

namespace BinaryGF

/-- Source method `buildMonomial` of the current BinaryGF: a coefficient
followed by `degree` zeros, passed through the polynomial constructor. -/
def buildMonomial (degree coefficient : Nat) : List Nat :=
  GFPoly.mk (coefficient :: List.replicate degree 0)

/-- Source helper `getZeroPoly`. -/
def zeroPoly : List Nat := [0]

/-- Source helper `getOnePoly`. -/
def onePoly : List Nat := [1]

end BinaryGF

/-! ## Reed-Solomon encoder
Source: src/core/common/reedsolomon/ReedSolomonEncoder.ts. -/

namespace ReedSolomonEncoder

/-- The cached generator polynomials: G0 = 1 and
Gd = G(d-1) * (x + alpha^(d-1)). -/
def generator : Nat → List Nat
  | 0 => BinaryGF.onePoly
  | d + 1 => GFPoly.mulPoly (generator d) [1, BinaryGF.expF d]

/-- Source method `encode`: reject empty data, pass data through when no
parity is requested, otherwise append the remainder of the zero-extended data
modulo the generator, right-aligned into the tail. -/
def encode (data : List Nat) (ecSymbols : Nat) : Except String (List Nat) := do
  if data.length = 0 then throw "No data symbols!"
  if ecSymbols = 0 then return data
  let gen := generator ecSymbols
  let encodedData := data ++ List.replicate ecSymbols 0
  let poly ← mkPolyE encodedData
  let rem := (← GFPoly.divModPoly poly gen).2
  return encodedData.take (encodedData.length - rem.length) ++ rem

end ReedSolomonEncoder

/-! ## Content encoder
Source: src/core/encoder/Encoder.ts, the revision with VERSION = 1.
Character codes become `Nat`, the ecLevel float becomes `ℚ`. -/

namespace Encoder

/-- Source constant VERSION of the current revision. -/
def version : Nat := 1

/-- Source constant MAX_SIZE. -/
def maxSize : Nat := 64

/-- Source constant OFFSET (number of metadata symbols). -/
def offset : Nat := 2

/-- Source constant SYMBOLS_PER_ERROR. -/
def symbolsPerError : Nat := 2

/-- Source constant MAPPING_TABLE (128 entries, index = character code). -/
def mappingTable : List Int := [
  -1, -1, -1, -1, -1, -1, -1, -1, -1, -1, -1, -1, -1, -1, -1, -1,
  -1, -1, -1, -1, -1, -1, -1, -1, -1, -1, -1, -1, -1, -1, -1, -1,
  -1, -1, -1, -1, -1, -1, -1, -1, -1, -1, -1, -1, -1, -1, -1, -1,
  26, 27, 28, 29, 30, 31, 32, 33, 34, 35, -1, -1, -1, -1, -1, -1,
  -1, 0, 1, 2, 3, 4, 5, 6, 7, 8, 9, 10, 11, 12, 13, 14,
  15, 16, 17, 18, 19, 20, 21, 22, 23, 24, 25, -1, -1, -1, -1, -1,
  -1, 0, 1, 2, 3, 4, 5, 6, 7, 8, 9, 10, 11, 12, 13, 14,
  15, 16, 17, 18, 19, 20, 21, 22, 23, 24, 25, -1, -1, -1, -1, -1]

/-- The per-character lookup of the encode loop:
`charCode < MAPPING_TABLE.length ? MAPPING_TABLE[charCode] : -1`. -/
def mapChar (c : Nat) : Int := if c < 128 then mappingTable.getD c 0 else -1

/-- The error-correction symbol count before square rounding:
`Math.ceil(payload.length * ecLevel) * SYMBOLS_PER_ERROR`. -/
def ecSymbolsFor (len : Nat) (ecLevel : ℚ) : Nat :=
  (Int.ceil ((len : ℚ) * ecLevel)).toNat * symbolsPerError

/-- The size-selection loop: `sideLength = 1; while (side^2 < minimumSize) side++`. -/
def sideLoop (m s : Nat) : Nat :=
  if s * s < m then sideLoop m (s + 1) else s
termination_by m - s * s
decreasing_by
  have h2 : (s + 1) * (s + 1) = s * s + 2 * s + 1 := by ring
  omega

/-- The encoded code produced by the content encoder (imageData omitted:
the renderer fills it later). -/
structure EncodedIChing where
  version : Nat
  size : Nat
  data : List Nat

/-- The character-mapping loop of `encode`:
`for i in [0, payload.length): data[i + OFFSET] = mapped char, else throw`. -/
def encodeCharsGo (d : List Nat) (payload : List Nat) (i : Nat) :
    Except String (List Nat) :=
  match payload with
  | [] => .ok d
  | c :: rest =>
      if mapChar c = -1 then .error "Invalid character in payload!"
      else encodeCharsGo (d.set (i + offset) (mapChar c).toNat) rest (i + 1)

/-- Source method `Encoder.encode(payload, ecLevel)`; the payload is the list
of its character codes.  The odd-fill write `data[trueSize - 1 - ecSymbols] = 0`
stores a zero into the zero-initialised buffer and is kept for fidelity. -/
def encode (payload : List Nat) (ecLevel : ℚ) : Except String EncodedIChing :=
  if payload.length = 0 then .error "Empty payload!"
  else if ecLevel < 0 ∨ 1 < ecLevel then
    .error "Error correction percentage must be a value between 0 - 1!"
  else
    let ecSymbols := ecSymbolsFor payload.length ecLevel
    let minimumSize := offset + payload.length + ecSymbols
    if maxSize < minimumSize then
      .error "Payload and error correction level combination is too big!"
    else
      let sideLength := sideLoop minimumSize 1
      let trueSize := sideLength * sideLength
      let extra := trueSize - minimumSize
      let ecSymbols2 := ecSymbols + (extra - extra % 2)
      let data0 := List.replicate (trueSize - ecSymbols2) 0
      let data1 := if extra % 2 = 1 then data0.set (trueSize - 1 - ecSymbols2) 0 else data0
      let data2 := (data1.set 0 version).set 1 payload.length
      match encodeCharsGo data2 payload 0 with
      | .error e => .error e
      | .ok data3 =>
          match ReedSolomonEncoder.encode data3 ecSymbols2 with
          | .error e => .error ("Reed-Solomon encoding failed: '" ++ e ++ "'!")
          | .ok encodedData => .ok ⟨data3.getD 0 0, sideLength, encodedData⟩

end Encoder

theorem sideLoop_sq_ge (m s : Nat) : m ≤ Encoder.sideLoop m s * Encoder.sideLoop m s := by
  induction s using Encoder.sideLoop.induct m with
  | case1 s h ih =>
      rw [Encoder.sideLoop, if_pos h]
      exact ih
  | case2 s h =>
      rw [Encoder.sideLoop, if_neg h]
      omega

theorem sideLoop_min (m s : Nat) :
    ∀ t, s ≤ t → m ≤ t * t → Encoder.sideLoop m s ≤ t := by
  induction s using Encoder.sideLoop.induct m with
  | case1 s h ih =>
      intro t hst htm
      rw [Encoder.sideLoop, if_pos h]
      refine ih t ?_ htm
      rcases Nat.eq_or_lt_of_le hst with rfl | hlt
      · omega
      · exact hlt
  | case2 s h =>
      intro t hst _
      rw [Encoder.sideLoop, if_neg h]
      exact hst

theorem sideLoop_ge_start (m s : Nat) : s ≤ Encoder.sideLoop m s := by
  induction s using Encoder.sideLoop.induct m with
  | case1 s h ih =>
      rw [Encoder.sideLoop, if_pos h]
      omega
  | case2 s h =>
      rw [Encoder.sideLoop, if_neg h]

/-- When the content encoder returns, the returned size is the side length
chosen by the size-selection loop. -/
theorem encode_ok_size (payload : List Nat) (ecLevel : ℚ) (res : Encoder.EncodedIChing)
    (h : Encoder.encode payload ecLevel = Except.ok res) :
    res.size = Encoder.sideLoop
      (Encoder.offset + payload.length + Encoder.ecSymbolsFor payload.length ecLevel) 1 := by
  unfold Encoder.encode at h
  split at h
  · exact absurd h (by simp)
  · split at h
    · exact absurd h (by simp)
    · simp only [] at h
      split at h
      · exact absurd h (by simp)
      · split at h
        · exact absurd h (by simp)
        · split at h
          · exact absurd h (by simp)
          · rw [Except.ok.injEq] at h
            rw [← h]

/-- C3: for every payload and ecLevel the content encoder accepts, the returned
size S satisfies S^2 ≥ minSize = OFFSET + |payload| + 2·ceil(ecLevel·|payload|),
and S is the smallest positive integer whose square satisfies that bound. -/
theorem c3_encoder_size_minimal (payload : List Nat) (ecLevel : ℚ)
    (res : Encoder.EncodedIChing) (h : Encoder.encode payload ecLevel = Except.ok res) :
    Encoder.offset + payload.length + Encoder.ecSymbolsFor payload.length ecLevel ≤
      res.size * res.size ∧
    (∀ s, 0 < s →
      Encoder.offset + payload.length + Encoder.ecSymbolsFor payload.length ecLevel ≤ s * s →
      res.size ≤ s) := by
  rw [encode_ok_size payload ecLevel res h]
  exact ⟨sideLoop_sq_ge _ 1, fun s hs hms => sideLoop_min _ 1 s hs hms⟩

/-- Witness for C3: encoding the payload "AB" (character codes 65, 66) with
ecLevel 0 succeeds with size 2, and 2 is optimal for minSize 4. -/
theorem c3_encoder_size_minimal_witness :
    Encoder.offset + ([65, 66] : List Nat).length +
        Encoder.ecSymbolsFor ([65, 66] : List Nat).length 0 ≤
      (Encoder.EncodedIChing.mk 1 2 [1, 2, 0, 1]).size *
        (Encoder.EncodedIChing.mk 1 2 [1, 2, 0, 1]).size ∧
    (Encoder.EncodedIChing.mk 1 2 [1, 2, 0, 1]).size ≤ 2 := by
  have hec : Encoder.ecSymbolsFor ([65, 66] : List Nat).length 0 = 0 := by
    norm_num [Encoder.ecSymbolsFor]
  have hside : Encoder.sideLoop 4 1 = 2 := by
    rw [Encoder.sideLoop, if_pos (by norm_num), Encoder.sideLoop, if_neg (by norm_num)]
  have henc : Encoder.encode [65, 66] 0 =
      Except.ok (Encoder.EncodedIChing.mk 1 2 [1, 2, 0, 1]) := by
    unfold Encoder.encode
    rw [if_neg (by norm_num), if_neg (by norm_num), hec]
    norm_num [hside, Encoder.offset, Encoder.maxSize, Encoder.version,
      Encoder.encodeCharsGo, Encoder.mapChar, Encoder.mappingTable,
      ReedSolomonEncoder.encode]
    rfl
  have hmain := c3_encoder_size_minimal [65, 66] 0 _ henc
  exact ⟨hmain.1, hmain.2 2 (by norm_num) (by rw [hec]; norm_num [Encoder.offset])⟩

/-! ## Content encoder alphabet, latest revision
The content decoder (src/core/decoder/Decoder.ts, line 64) reads
`Encoder.ALPHABET`, a member of the latest Encoder revision that is not among
the source files (the Encoder.ts present carries the earlier Int8 mapping
table instead); the alphabet string and its character mapping are therefore
modelled from the spec. -/

/-- Modelled from the spec: the missing `Encoder.ALPHABET`, the fixed
64-character string of section 6 - the upper-case letters, the ten digits and
the curated punctuation run ending in a double quote and a space (the two
brace characters are written as hex escapes here). -/
def alphabet : List Char :=
  "ABCDEFGHIJKLMNOPQRSTUVWXYZ0123456789!@#$%^&*()\x7b\x7d[]_+-=.,:;/?<>\" ".toList

/-- First index of a character in a character list, starting at `i`. -/
def idxOfGo : List Char → Char → Nat → Option Nat
  | [], _, _ => none
  | a :: rest, c, i => if a = c then some i else idxOfGo rest c (i + 1)

/-- Modelled from the spec: the field element of a character is its index in
the alphabet string; characters outside the alphabet have none. -/
def alphaIndex (c : Char) : Option Nat := idxOfGo alphabet c 0

/-- Modelled from the spec: the latest encode mapping upper-cases the payload,
maps each character through the alphabet, and fails with
"Invalid character in payload!" on any character not in the alphabet. -/
def specEncodePayload : List Char → Except String (List Nat)
  | [] => .ok []
  | c :: rest =>
      match alphaIndex c.toUpper with
      | none => .error "Invalid character in payload!"
      | some i =>
          match specEncodePayload rest with
          | .error e => .error e
          | .ok is => .ok (i :: is)

theorem idxOfGo_eq_none_iff (l : List Char) (c : Char) :
    ∀ i, (idxOfGo l c i = none ↔ c ∉ l) := by
  induction l with
  | nil => simp [idxOfGo]
  | cons a rest ih =>
      intro i
      by_cases hac : a = c
      · simp [idxOfGo, hac]
      · simp only [idxOfGo, if_neg hac, List.mem_cons, ih (i + 1)]
        constructor
        · intro hn hc
          rcases hc with hc | hc
          · exact hac hc.symm
          · exact hn hc
        · intro hn
          exact fun hc => hn (Or.inr hc)

theorem alphaIndex_eq_none_iff (c : Char) : alphaIndex c = none ↔ c ∉ alphabet :=
  idxOfGo_eq_none_iff alphabet c 0

theorem specEncodePayload_error_iff (s : List Char) :
    (∃ e, specEncodePayload s = Except.error e) ↔ ∃ c ∈ s, c.toUpper ∉ alphabet := by
  induction s with
  | nil => simp [specEncodePayload]
  | cons c rest ih =>
      unfold specEncodePayload
      rcases h : alphaIndex c.toUpper with _ | i
      · have hmem : c.toUpper ∉ alphabet := (alphaIndex_eq_none_iff _).mp h
        simp only []
        constructor
        · intro _
          exact ⟨c, List.mem_cons_self c rest, hmem⟩
        · intro _
          exact ⟨"Invalid character in payload!", rfl⟩
      · have hmem : c.toUpper ∈ alphabet := by
          by_contra hc
          rw [← alphaIndex_eq_none_iff] at hc
          rw [h] at hc
          exact Option.noConfusion hc
        rcases h2 : specEncodePayload rest with e | is
        · simp only []
          constructor
          · intro _
            rcases ih.mp ⟨e, h2⟩ with ⟨c2, hc2, hn2⟩
            exact ⟨c2, List.mem_cons_of_mem c hc2, hn2⟩
          · intro _
            exact ⟨e, rfl⟩
        · simp only []
          constructor
          · rintro ⟨e, he⟩
            exact Except.noConfusion he
          · rintro ⟨c2, hc2, hn2⟩
            rcases List.mem_cons.mp hc2 with rfl | hc2
            · exact absurd hmem hn2
            · rcases ih.mpr ⟨c2, hc2, hn2⟩ with ⟨e, he⟩
              rw [h2] at he
              exact Except.noConfusion he

/-- C4: the alphabet has 64 characters; every alphabet character maps to its
own index (so every one is accepted); character codes 65-90 (A-Z) map to
0-25 and codes 48-57 (0-9) map to 26-35; positions 36-63 hold neither letters
nor digits (the punctuation run); a character maps to none exactly when it is
not in the alphabet; and the payload mapping fails exactly when some
upper-cased character is outside the alphabet. -/
theorem c4_alphabet_mapping :
    alphabet.length = 64 ∧
    (∀ i, i < 64 → alphaIndex (alphabet.getD i ' ') = some i) ∧
    (∀ n, n < 128 → 65 ≤ n → n ≤ 90 → alphaIndex (Char.ofNat n) = some (n - 65)) ∧
    (∀ n, n < 128 → 48 ≤ n → n ≤ 57 → alphaIndex (Char.ofNat n) = some (26 + (n - 48))) ∧
    (∀ i, i < 64 → 36 ≤ i →
      ¬(alphabet.getD i ' ').isAlpha ∧ ¬(alphabet.getD i ' ').isDigit) ∧
    (∀ c, alphaIndex c = none ↔ c ∉ alphabet) ∧
    (∀ s : List Char, (∃ e, specEncodePayload s = Except.error e) ↔
      ∃ c ∈ s, c.toUpper ∉ alphabet) :=
  ⟨by decide, by decide, by decide, by decide, by decide,
   alphaIndex_eq_none_iff, specEncodePayload_error_iff⟩

/-- Witness for C4 at concrete inputs: position 0 maps back to 0, the
character A (code 65) maps to 0, and the digit 0 (code 48) maps to 26. -/
theorem c4_alphabet_mapping_witness :
    alphaIndex (alphabet.getD 0 ' ') = some 0 ∧
    alphaIndex (Char.ofNat 65) = some (65 - 65) ∧
    alphaIndex (Char.ofNat 48) = some (26 + (48 - 48)) :=
  ⟨c4_alphabet_mapping.2.1 0 (by decide),
   c4_alphabet_mapping.2.2.1 65 (by decide) (by decide) (by decide),
   c4_alphabet_mapping.2.2.2.1 48 (by decide) (by decide) (by decide)⟩

/-! ## Reed-Solomon decoder
Source: src/core/common/reedsolomon/ReedSolomonDecoder.ts; the polynomial
operations it calls are the spec-modelled ones above. -/

namespace ReedSolomonDecoder

/-- Source method `computeSyndromes`: `coefficients[ecSymbols - 1 - i]`
receives the evaluation of the received polynomial at `exp(i)`, then the
array passes through the polynomial constructor (which rejects an empty
array, i.e. `ecSymbols = 0`, and strips leading zeros). -/
def computeSyndromes (poly : List Nat) (ecSymbols : Nat) : Except String (List Nat) :=
  mkPolyE <|
    (List.range ecSymbols).foldl
      (fun cs i => cs.set (ecSymbols - 1 - i) (GFPoly.evaluateAt poly (BinaryGF.expF i)))
      (List.replicate ecSymbols 0)

/-- The `while (R1.getDegree() >= ecSymbols / 2)` loop of
`computeLocatorAndEvaluator`.  The source loop terminates because each
iteration replaces R1 by the division remainder, of strictly smaller degree;
the embedding carries a fuel bound larger than the largest possible iteration
count and maps the (unreachable) exhaustion case to an error. -/
def euclid (k : Nat) :
    Nat → List Nat → List Nat → List Nat → List Nat →
      Except String (List Nat × List Nat)
  | 0, _, _, _, _ => .error "Euclidean loop bound exceeded"
  | fuel + 1, R2, R1, A2, A1 =>
      if k ≤ 2 * GFPoly.degree R1 then
        match GFPoly.divModPoly R2 R1 with
        | .error e => .error e
        | .ok qr =>
            euclid k fuel R1 (GFPoly.addPoly R2 (GFPoly.mulPoly qr.1 R1)) A1
              (GFPoly.addPoly A2 (GFPoly.mulPoly qr.1 A1))
      else .ok (A1, R1)

/-- Source method `computeLocatorAndEvaluator`: extended Euclid from
R2 = x^ecSymbols, R1 = syndromes, A2 = 0, A1 = 1; then both results are
normalised by the inverse of the constant term of A1 (`mulInverse` throws
when that constant is zero). -/
def computeLocatorAndEvaluator (syndromes : List Nat) (ecSymbols : Nat) :
    Except String (List Nat × List Nat) :=
  match euclid ecSymbols (ecSymbols + 2) (BinaryGF.buildMonomial ecSymbols 1) syndromes
      BinaryGF.zeroPoly BinaryGF.onePoly with
  | .error e => .error e
  | .ok ar =>
      match BinaryGF.mulInverse (GFPoly.getCoefficient ar.1 0) with
      | .error e => .error e
      | .ok inv => .ok (GFPoly.mulScalar ar.1 inv, GFPoly.mulScalar ar.2 inv)

/-- Source method `computeErrorLocations`: exhaustive root search over the
non-zero field elements (`for i = 1; i < 64 && e < errorCount`), collecting
`mulInverse(i)` for each root (i is non-zero there, so that call cannot
throw and is the inverse value); fails when the count of roots found differs
from the degree of the error locator. -/
def errorLocations (errorLocator : List Nat) : Except String (List Nat) :=
  let errorCount := GFPoly.degree errorLocator
  let locs := (List.range 63).foldl
    (fun locs i0 =>
      if locs.length < errorCount ∧ GFPoly.evaluateAt errorLocator (i0 + 1) = 0 then
        locs ++ [BinaryGF.invVal (i0 + 1)]
      else locs)
    []
  if locs.length ≠ errorCount then
    .error "Error locator degree does not match number of roots!"
  else .ok locs

/-- One magnitude of `computeErrorMagnitudes`: the Forney formula term for
location index i. -/
def magFor (locs ev : List Nat) (i : Nat) : Except String Nat :=
  match BinaryGF.mulInverse (locs.getD i 0) with
  | .error e => .error e
  | .ok xiInverse =>
      let denominator := (List.range locs.length).foldl
        (fun den j =>
          if i = j then den
          else BinaryGF.multiply den
            (BinaryGF.add 1 (BinaryGF.multiply xiInverse (locs.getD j 0))))
        1
      match BinaryGF.mulInverse denominator with
      | .error e => .error e
      | .ok dinv => .ok (BinaryGF.multiply (GFPoly.evaluateAt ev xiInverse) dinv)

/-- The `for i in [0, errorCount)` loop of `computeErrorMagnitudes`. -/
def magsGo (locs ev : List Nat) : Nat → Nat → Except String (List Nat)
  | _, 0 => .ok []
  | i, n + 1 =>
      match magFor locs ev i with
      | .error e => .error e
      | .ok m =>
          match magsGo locs ev (i + 1) n with
          | .error e => .error e
          | .ok rest => .ok (m :: rest)

/-- Source method `computeErrorMagnitudes`. -/
def errorMagnitudes (ev locs : List Nat) : Except String (List Nat) :=
  magsGo locs ev 0 locs.length

/-- The correction loop of `decode`: for each location/magnitude pair, the
affected index is `corrected.length - 1 - log(location)` (checked to be
non-negative in signed arithmetic), and the magnitude is XORed in. -/
def applyGo : List (Nat × Nat) → List Nat → Except String (List Nat)
  | [], cor => .ok cor
  | lm :: rest, cor =>
      match BinaryGF.logF lm.1 with
      | .error e => .error e
      | .ok lg =>
          if (cor.length : Int) - 1 - (lg : Int) < 0 then .error "Invalid error location"
          else
            applyGo rest
              (cor.set (cor.length - 1 - lg)
                (BinaryGF.add (cor.getD (cor.length - 1 - lg) 0) lm.2))

/-- Source method `ReedSolomonDecoder.decode`: build the received polynomial,
compute syndromes, return `received` itself when they are all zero, otherwise
locate and evaluate the errors and XOR the magnitudes into a fresh copy of
`received` (`new Uint8ClampedArray(received)`), which `applyGo` receives by
value. -/
def decode (received : List Nat) (ecSymbols : Nat) : Except String (List Nat) :=
  match mkPolyE received with
  | .error e => .error e
  | .ok receivedPoly =>
      match computeSyndromes receivedPoly ecSymbols with
      | .error e => .error e
      | .ok syndromes =>
          if GFPoly.isZero syndromes then .ok received
          else
            match computeLocatorAndEvaluator syndromes ecSymbols with
            | .error e => .error e
            | .ok le =>
                match errorLocations le.1 with
                | .error e => .error e
                | .ok locations =>
                    match errorMagnitudes le.2 locations with
                    | .error e => .error e
                    | .ok magnitudes => applyGo (locations.zip magnitudes) received

/-- The decode call together with the final state of the caller `received`
buffer.  The source method reads `received` (through the polynomial
constructor, the syndrome computation and the `corrected` copy), and neither
it nor any helper it calls has an assignment whose target is `received`, so
the buffer state after the call is the argument itself. -/
def decodeWithInput (received : List Nat) (ecSymbols : Nat) :
    Except String (List Nat) × List Nat :=
  (decode received ecSymbols, received)

end ReedSolomonDecoder

theorem applyGo_length (ps : List (Nat × Nat)) :
    ∀ cor out, ReedSolomonDecoder.applyGo ps cor = Except.ok out →
      out.length = cor.length := by
  induction ps with
  | nil =>
      intro cor out h
      rw [ReedSolomonDecoder.applyGo, Except.ok.injEq] at h
      rw [h]
  | cons lm rest ih =>
      intro cor out h
      rw [ReedSolomonDecoder.applyGo] at h
      split at h
      · exact Except.noConfusion h
      · split at h
        · exact Except.noConfusion h
        · have := ih _ _ h
          simpa using this

/-- C10: the Reed-Solomon decoder leaves its `received` input unchanged, it
returns the very same array when all syndromes vanish, and (corrections being
applied only to a fresh copy) any successful output has the length of the
input. -/
theorem c10_rs_decoder_input_preserved (received : List Nat) (ecSymbols : Nat) :
    (ReedSolomonDecoder.decodeWithInput received ecSymbols).2 = received ∧
    (∀ receivedPoly syndromes,
      mkPolyE received = Except.ok receivedPoly →
      ReedSolomonDecoder.computeSyndromes receivedPoly ecSymbols = Except.ok syndromes →
      GFPoly.isZero syndromes = true →
      ReedSolomonDecoder.decode received ecSymbols = Except.ok received) ∧
    (∀ out, ReedSolomonDecoder.decode received ecSymbols = Except.ok out →
      out.length = received.length) := by
  refine ⟨rfl, ?_, ?_⟩
  · intro receivedPoly syndromes h1 h2 h3
    unfold ReedSolomonDecoder.decode
    rw [h1]
    simp only []
    rw [h2]
    simp only []
    rw [if_pos h3]
  · intro out h
    unfold ReedSolomonDecoder.decode at h
    split at h
    · exact Except.noConfusion h
    · split at h
      · exact Except.noConfusion h
      · split at h
        · rw [Except.ok.injEq] at h
          rw [h]
        · split at h
          · exact Except.noConfusion h
          · split at h
            · exact Except.noConfusion h
            · split at h
              · exact Except.noConfusion h
              · exact applyGo_length _ _ _ h

/-- Witness for C10: on the all-zero codeword of length 2 with one parity
symbol the syndromes vanish and the input array itself is returned. -/
theorem c10_rs_decoder_input_preserved_witness :
    ReedSolomonDecoder.decode [0, 0] 1 = Except.ok [0, 0] :=
  (c10_rs_decoder_input_preserved [0, 0] 1).2.1 [0] [0] rfl rfl rfl

/-! ## Field-element range invariants
All values the Reed-Solomon decoder writes into a corrected array are field
elements below 64; these lemmas carry that invariant to the corrected output
array. -/

theorem getD_lt_64 (l : List Nat) (h : ∀ x ∈ l, x < 64) (j : Nat) : l.getD j 0 < 64 := by
  by_cases hj : j < l.length
  · rw [List.getD_eq_getElem l 0 hj]
    exact h _ (List.getElem_mem hj)
  · rw [List.getD_eq_default _ _ (Nat.le_of_not_lt hj)]
    omega

theorem expTable_getD_lt (j : Nat) : BinaryGF.expTable.getD j 0 < 64 :=
  getD_lt_64 _ (by decide) j

theorem multiply_lt (x y : Nat) : BinaryGF.multiply x y < 64 := by
  unfold BinaryGF.multiply
  split
  · omega
  · exact expTable_getD_lt _

theorem add_lt (x y : Nat) (hx : x < 64) (hy : y < 64) : BinaryGF.add x y < 64 := by
  have h64 : (64 : Nat) = 2 ^ 6 := by norm_num
  rw [BinaryGF.add, h64]
  exact Nat.xor_lt_two_pow (h64 ▸ hx) (h64 ▸ hy)

theorem magFor_ok_lt (locs ev : List Nat) (i m : Nat)
    (h : ReedSolomonDecoder.magFor locs ev i = Except.ok m) : m < 64 := by
  unfold ReedSolomonDecoder.magFor at h
  split at h
  · exact Except.noConfusion h
  · simp only [] at h
    split at h
    · exact Except.noConfusion h
    · rw [Except.ok.injEq] at h
      rw [← h]
      exact multiply_lt _ _

theorem magsGo_ok_lt (locs ev : List Nat) :
    ∀ n i out, ReedSolomonDecoder.magsGo locs ev i n = Except.ok out →
      ∀ m ∈ out, m < 64 := by
  intro n
  induction n with
  | zero =>
      intro i out h
      rw [ReedSolomonDecoder.magsGo, Except.ok.injEq] at h
      rw [← h]
      intro m hm
      exact absurd hm (List.not_mem_nil m)
  | succ n ih =>
      intro i out h
      rw [ReedSolomonDecoder.magsGo] at h
      split at h
      · exact Except.noConfusion h
      · rename_i m0 hm0
        split at h
        · exact Except.noConfusion h
        · rename_i rest hrest
          rw [Except.ok.injEq] at h
          rw [← h]
          intro m hm
          rcases List.mem_cons.mp hm with rfl | hm
          · exact magFor_ok_lt locs ev i m hm0
          · exact ih (i + 1) rest hrest m hm

theorem applyGo_ok_lt (ps : List (Nat × Nat)) :
    ∀ cor out, (∀ x ∈ cor, x < 64) → (∀ pm ∈ ps, pm.2 < 64) →
      ReedSolomonDecoder.applyGo ps cor = Except.ok out → ∀ x ∈ out, x < 64 := by
  induction ps with
  | nil =>
      intro cor out hc _ h
      rw [ReedSolomonDecoder.applyGo, Except.ok.injEq] at h
      rw [← h]
      exact hc
  | cons lm rest ih =>
      intro cor out hc hp h
      rw [ReedSolomonDecoder.applyGo] at h
      split at h
      · exact Except.noConfusion h
      · split at h
        · exact Except.noConfusion h
        · refine ih _ _ ?_ (fun pm hm => hp pm (List.mem_cons_of_mem lm hm)) h
          intro x hx
          rcases List.mem_or_eq_of_mem_set hx with hx | rfl
          · exact hc x hx
          · exact add_lt _ _ (getD_lt_64 cor hc _) (hp lm (List.mem_cons_self lm rest))

theorem rs_decode_ok_lt (received : List Nat) (k : Nat) (out : List Nat)
    (hr : ∀ x ∈ received, x < 64)
    (h : ReedSolomonDecoder.decode received k = Except.ok out) : ∀ x ∈ out, x < 64 := by
  unfold ReedSolomonDecoder.decode at h
  split at h
  · exact Except.noConfusion h
  · split at h
    · exact Except.noConfusion h
    · split at h
      · rw [Except.ok.injEq] at h
        rw [← h]
        exact hr
      · split at h
        · exact Except.noConfusion h
        · rename_i le hle
          split at h
          · exact Except.noConfusion h
          · rename_i locations hloc
            split at h
            · exact Except.noConfusion h
            · rename_i magnitudes hmag
              refine applyGo_ok_lt _ _ _ hr ?_ h
              intro pm hpm
              have hmem := (List.of_mem_zip hpm).2
              exact magsGo_ok_lt locations le.2 locations.length 0 magnitudes hmag pm.2 hmem

/-! ## Content decoder
Source: src/core/decoder/Decoder.ts.  `Math.round(Math.sqrt(len))` is
embedded as `Nat.sqrt len`: the two agree on perfect squares (where the JS
double square root is exact) and on any other length both fail the
`size * size = len` test, so the branching and the returned size coincide. -/

/-- The decoded code: version, size and the recovered payload characters. -/
structure DecodedIChing where
  version : Nat
  size : Nat
  data : List Char

namespace Decoder

/-- The error-correction symbol count of the decoder:
`(received.length - offset - received[1]) & ~1`. -/
def ecSymbolsOf (received : List Nat) : Nat :=
  let ecRaw := received.length - Encoder.offset - received.getD 1 0
  ecRaw - ecRaw % 2

/-- The corrected array: the Reed-Solomon decode result when there are parity
symbols, otherwise `received.slice()` (a copy with the same values). -/
def correctedOf (received : List Nat) : Except String (List Nat) :=
  if ecSymbolsOf received ≠ 0 then ReedSolomonDecoder.decode received (ecSymbolsOf received)
  else .ok received

/-- The payload loop of `Decoder.decode`:
`for i in [0, dataLength): reject the symbol when it is ≥ alphabet.length,
else append alphabet[corrected[offset + i]]`; `n` counts the remaining
characters. -/
def buildPayload (corrected : List Nat) : Nat → Nat → Except String (List Char)
  | _, 0 => .ok []
  | i, n + 1 =>
      let sym := corrected.getD (Encoder.offset + i) 0
      if alphabet.length ≤ sym then .error "Invalid IChing Code!"
      else
        match buildPayload corrected (i + 1) n with
        | .error e => .error e
        | .ok cs => .ok (alphabet.getD sym ' ' :: cs)

/-- Source method `Decoder.decode`: validate version and squareness, validate
the payload length byte, Reed-Solomon-correct when parity symbols exist
(mapping any correction failure to "Invalid IChing Code!"), reject when
correction changed one of the first OFFSET symbols, then map the payload
symbols through the alphabet. -/
def decode (received : List Nat) : Except String DecodedIChing :=
  if received.getD 0 0 ≠ Encoder.version ∨
      Nat.sqrt received.length * Nat.sqrt received.length ≠ received.length then
    .error "Invalid IChing code!"
  else if received.getD 1 0 = 0 ∨
      received.length < received.getD 1 0 + Encoder.offset then
    .error "Invalid IChing code!"
  else
    match correctedOf received with
    | .error _ => .error "Invalid IChing Code!"
    | .ok corrected =>
        if corrected.getD 0 0 ≠ received.getD 0 0 ∨
            corrected.getD 1 0 ≠ received.getD 1 0 then
          .error "Invalid IChing Code!"
        else
          match buildPayload corrected 0 (received.getD 1 0) with
          | .error e => .error e
          | .ok payload =>
              .ok ⟨received.getD 0 0, Nat.sqrt received.length, payload⟩

end Decoder

theorem buildPayload_ok_of_lt (corrected : List Nat) (hc : ∀ x ∈ corrected, x < 64) :
    ∀ n i, ∃ cs, Decoder.buildPayload corrected i n = Except.ok cs := by
  intro n
  induction n with
  | zero =>
      intro i
      exact ⟨[], rfl⟩
  | succ n ih =>
      intro i
      rcases ih (i + 1) with ⟨cs, hcs⟩
      refine ⟨alphabet.getD (corrected.getD (Encoder.offset + i) 0) ' ' :: cs, ?_⟩
      rw [Decoder.buildPayload]
      have hlt : corrected.getD (Encoder.offset + i) 0 < alphabet.length := by
        have := getD_lt_64 corrected hc (Encoder.offset + i)
        have hal : alphabet.length = 64 := by decide
        omega
      rw [if_neg (by omega)]
      rw [hcs]

theorem correctedOf_ok_lt (received : List Nat) (hr : ∀ x ∈ received, x < 64)
    (c : List Nat) (h : Decoder.correctedOf received = Except.ok c) : ∀ x ∈ c, x < 64 := by
  unfold Decoder.correctedOf at h
  split at h
  · exact rs_decode_ok_lt received _ c hr h
  · rw [Except.ok.injEq] at h
    rw [← h]
    exact hr

/-- C6: for a received array of field symbols (length at least 2, entries
below 64), the content decoder raises a domain error exactly when the length
is not a perfect square, or the version byte differs from 1, or the payload
length byte is 0 or exceeds length - 2, or Reed-Solomon correction fails, or
correction changed one of the 2 metadata symbols, or some corrected payload
symbol is at least 64; on every other such input it returns normally. -/
theorem c6_decoder_error_iff (received : List Nat) (h2 : 2 ≤ received.length)
    (hlt : ∀ x ∈ received, x < 64) :
    (∃ e, Decoder.decode received = Except.error e) ↔
      (Nat.sqrt received.length * Nat.sqrt received.length ≠ received.length ∨
       received.getD 0 0 ≠ 1 ∨
       received.getD 1 0 = 0 ∨
       received.length - Encoder.offset < received.getD 1 0 ∨
       (∃ e, Decoder.correctedOf received = Except.error e) ∨
       (∃ c, Decoder.correctedOf received = Except.ok c ∧
         (c.getD 0 0 ≠ received.getD 0 0 ∨ c.getD 1 0 ≠ received.getD 1 0 ∨
          ∃ i, i < received.getD 1 0 ∧ 64 ≤ c.getD (Encoder.offset + i) 0))) := by
  have hoff : Encoder.offset = 2 := rfl
  unfold Decoder.decode
  split_ifs with hg1 hg2
  · constructor
    · intro _
      rcases hg1 with hg1 | hg1
      · exact Or.inr (Or.inl (by rw [show Encoder.version = 1 from rfl] at hg1; exact hg1))
      · exact Or.inl hg1
    · intro _
      exact ⟨"Invalid IChing code!", rfl⟩
  · constructor
    · intro _
      rcases hg2 with hg2 | hg2
      · exact Or.inr (Or.inr (Or.inl hg2))
      · refine Or.inr (Or.inr (Or.inr (Or.inl ?_)))
        rw [hoff] at hg2 ⊢
        omega
    · intro _
      exact ⟨"Invalid IChing code!", rfl⟩
  · rcases hc : Decoder.correctedOf received with e | c
    · simp only []
      constructor
      · intro _
        exact Or.inr (Or.inr (Or.inr (Or.inr (Or.inl ⟨e, rfl⟩))))
      · intro _
        exact ⟨"Invalid IChing Code!", rfl⟩
    · simp only []
      have hclt : ∀ x ∈ c, x < 64 := correctedOf_ok_lt received hlt c hc
      split_ifs with hmeta
      · constructor
        · intro _
          refine Or.inr (Or.inr (Or.inr (Or.inr (Or.inr ⟨c, rfl, ?_⟩))))
          rcases hmeta with hmeta | hmeta
          · exact Or.inl hmeta
          · exact Or.inr (Or.inl hmeta)
        · intro _
          exact ⟨"Invalid IChing Code!", rfl⟩
      · rcases buildPayload_ok_of_lt c hclt (received.getD 1 0) 0 with ⟨cs, hcs⟩
        rw [hcs]
        simp only []
        constructor
        · rintro ⟨e, he⟩
          exact Except.noConfusion he
        · rintro (hx | hx | hx | hx | hx | hx)
          · exact absurd (by push_neg at hg1; exact hg1.2) hx
          · exact absurd (by push_neg at hg1; exact hg1.1) hx
          · exact absurd hx (by push_neg at hg2; exact hg2.1)
          · refine absurd hx ?_
            push_neg at hg2
            rw [hoff] at hg2 ⊢
            omega
          · rcases hx with ⟨e, he⟩
            exact absurd he (by simp)
          · rcases hx with ⟨c2, hc2, hrest⟩
            rw [Except.ok.injEq] at hc2
            subst hc2
            rcases hrest with hx | hx | hx
            · exact absurd (by push_neg at hmeta; exact hmeta.1) hx
            · exact absurd (by push_neg at hmeta; exact hmeta.2) hx
            · rcases hx with ⟨i, _, hi⟩
              exact absurd hi (by
                have := getD_lt_64 c hclt (Encoder.offset + i)
                omega)

/-- Witness for C6 at the concrete array [2, 1, 0, 0]: the version byte is 2,
so decoding raises a domain error. -/
theorem c6_decoder_error_iff_witness :
    ∃ e, Decoder.decode [2, 1, 0, 0] = Except.error e :=
  (c6_decoder_error_iff [2, 1, 0, 0] (by decide) (by decide)).mpr
    (Or.inr (Or.inl (by decide)))

end IChing
